import Mathlib

/-!
# Shallow embedding of `mta.py` (MTA train routing)

This file embeds the trip-selection engine of `mta.py` in Lean 4 and proves
properties of its specification against it.

Modelling conventions:
* GTFS-realtime protobuf messages are modelled structurally.  A proto3
  scalar field that is absent reads as its default value `0`; the code
  accesses `stop_time.arrival.time` without a presence check, so an event
  with no arrival prediction reads `0` here exactly as in the program.
* Python `float` time arithmetic is modelled over `ℚ`.  Every quantity the
  claims mention is exact in binary floating point or far from any rounding
  boundary, so the rational model is faithful for them.
* Python truthiness on an optional number (`if origin_time and dest_time`)
  is `none`-or-zero falsy, which the embedding spells out explicitly.
* `list.sort(key=...)` is a stable sort on the key; it is embedded as
  `List.insertionSort` on the corresponding `≤`-on-key relation, which is
  extensionally the same function (any two stable sorts for a total
  preorder agree).
-/

namespace Mta

/-- One `stop_time_update` entry: a stop id with predicted arrival and
departure instants.  Absent protobuf fields read as `0`. -/
structure StopTimeEvent where
  stop_id : String
  arrival_time : ℚ
  departure_time : ℚ
deriving DecidableEq, Repr

/-- The `trip` descriptor of a trip update. -/
structure TripDescriptor where
  trip_id : String
  route_id : String
deriving DecidableEq, Repr

/-- One `trip_update` message: a trip descriptor plus its stop-time events. -/
structure TripUpdate where
  trip : TripDescriptor
  stop_time_update : List StopTimeEvent
deriving DecidableEq, Repr

/-- A feed entity; `has_trip_update` models `entity.HasField("trip_update")`. -/
structure FeedEntity where
  has_trip_update : Bool
  trip_update : TripUpdate
deriving DecidableEq, Repr

/-- A decoded GTFS-realtime feed. -/
structure FeedMessage where
  entity : List FeedEntity
deriving DecidableEq, Repr

/-- The trip dictionary built by `find_trips_for_route`. -/
structure ExtractedTrip where
  trip_id : String
  route_id : String
  origin_time : ℚ
  dest_time : ℚ
deriving DecidableEq, Repr

/-- The scan over one trip update's `stop_time_update` list: `origin_time`
is overwritten by `stop_time.arrival.time` whenever `stop_id == origin_stop`
and `dest_time` whenever `stop_id == dest_stop` (`elif`, so when the two
configured stops coincide only the origin branch fires); the last event for
a stop wins. -/
def scanStop (origin_stop dest_stop : String) (acc : Option ℚ × Option ℚ)
    (st : StopTimeEvent) : Option ℚ × Option ℚ :=
  if st.stop_id = origin_stop then (some st.arrival_time, acc.2)
  else if st.stop_id = dest_stop then (acc.1, some st.arrival_time)
  else acc

/-- The body of `find_trips_for_route` for one trip update: scan the stop
times starting from `origin_time = None, dest_time = None`, then the guard
`if origin_time and dest_time and origin_time < dest_time` (Python
truthiness: `None` and `0` are both falsy). -/
def extractOne (origin_stop dest_stop : String) (tu : TripUpdate) :
    Option ExtractedTrip :=
  match tu.stop_time_update.foldl (scanStop origin_stop dest_stop) (none, none) with
  | (some o, some d) =>
      if o ≠ 0 ∧ d ≠ 0 ∧ o < d then
        some { trip_id := tu.trip.trip_id, route_id := tu.trip.route_id,
               origin_time := o, dest_time := d }
      else none
  | (_, _) => none

/-- `find_trips_for_route(feed, origin_stop, dest_stop)`: all trips that
serve both stops, in feed order, skipping entities without a trip update. -/
def find_trips_for_route (feed : FeedMessage) (origin_stop dest_stop : String) :
    List ExtractedTrip :=
  feed.entity.filterMap fun e =>
    if e.has_trip_update then extractOne origin_stop dest_stop e.trip_update
    else none

/-- The catchability list comprehension from `main`:
`[t for t in feed_trips if t["origin_time"] >= earliest_board]` with
`earliest_board = now + walk_to_station` (walking time in seconds). -/
def catchable_filter (feed_trips : List ExtractedTrip)
    (walk_to_station now : ℚ) : List ExtractedTrip :=
  feed_trips.filter fun t => now + walk_to_station ≤ t.origin_time

/-- The `Trip` dataclass.  The display-only fields `board_str` and
`arrive_str` (local-time `HH:MM` strings produced by `format_time` via
`datetime`) are not modelled: they depend on the process timezone and no
ranking or filtering reads them. -/
structure Trip where
  route_name : String
  arrival_at_office : ℚ
  total_min : ℚ
  leave_in : ℚ
  color : List ℕ
deriving DecidableEq, Repr

/-- One entry of `config["routes"]`.  `color` is optional in the JSON and
read with `route.get("color", [255, 255, 255])`. -/
structure RouteConfig where
  name : String
  feed_id : String
  origin_stop : String
  dest_stop : String
  walk_to_station_min : ℚ
  walk_to_office_min : ℚ
  color : Option (List ℕ)
deriving DecidableEq, Repr

/-- The process configuration.  `max_arrival_minutes` is optional in the
JSON and read with `config.get("max_arrival_minutes", 60)`. -/
structure Config where
  routes : List RouteConfig
  poll_interval_seconds : ℚ
  max_arrival_minutes : Option ℚ
deriving DecidableEq, Repr

/-- Mutable state threaded through one iteration of the `while True` loop:
the per-cycle feed cache and the `all_trips` accumulator.  `fetch_log`
instruments the calls to `fetch_feed` (one entry per invocation, in order)
and `messages` records the per-route `print` lines for errors and
`No trains`. -/
structure CycleState where
  feed_cache : List (String × FeedMessage)
  fetch_log : List String
  messages : List String
  all_trips : List Trip
deriving DecidableEq, Repr

/-- The per-route body after a feed is available: extract trips, filter to
catchable ones, and either print `No trains` (`continue`) or append one
`Trip` per catchable trip to `all_trips`. -/
def evalRoute (now : ℚ) (route : RouteConfig) (feed : FeedMessage)
    (s : CycleState) : CycleState :=
  let feed_trips := find_trips_for_route feed route.origin_stop route.dest_stop
  let walk_to_station := route.walk_to_station_min * 60
  let catchable := catchable_filter feed_trips walk_to_station now
  if catchable.isEmpty then
    { s with messages := s.messages ++ [route.name ++ ": No trains"] }
  else
    let walk_to_office := route.walk_to_office_min * 60
    let color := route.color.getD [255, 255, 255]
    { s with all_trips := s.all_trips ++ catchable.map fun t =>
        let arrival_at_office := t.dest_time + walk_to_office
        { route_name := route.name
          arrival_at_office := arrival_at_office
          total_min := (arrival_at_office - now) / 60
          leave_in := (t.origin_time - walk_to_station - now) / 60
          color := color } }

/-- One iteration of the `for route in config["routes"]` loop body: consult
the feed cache, fetch on a miss (logging the call), cache only a successful
fetch (`feed_cache[feed_id] = fetch_feed(feed_id)` — the dict assignment is
modelled by consing onto the association list, which is sound because the
key is absent at insertion time), print and `continue` on a fetch error,
else evaluate the route. -/
def processRoute (fetchFn : String → Except String FeedMessage) (now : ℚ)
    (s : CycleState) (route : RouteConfig) : CycleState :=
  match s.feed_cache.lookup route.feed_id with
  | some feed => evalRoute now route feed s
  | none =>
    match fetchFn route.feed_id with
    | .ok feed =>
        evalRoute now route feed
          { s with feed_cache := (route.feed_id, feed) :: s.feed_cache,
                   fetch_log := s.fetch_log ++ [route.feed_id] }
    | .error e =>
        { s with fetch_log := s.fetch_log ++ [route.feed_id],
                 messages := s.messages ++ [route.name ++ ": Error - " ++ e] }

/-- The state after the route loop of one poll cycle, starting from the
cleared feed cache (`feed_cache.clear()`) and an empty `all_trips`. -/
def cycleState (cfg : Config) (fetchFn : String → Except String FeedMessage)
    (now : ℚ) : CycleState :=
  cfg.routes.foldl (processRoute fetchFn now) ⟨[], [], [], []⟩

/-- The sort relation of `all_trips.sort(key=lambda t: t.arrival_at_office)`. -/
def tripLE (a b : Trip) : Prop :=
  a.arrival_at_office ≤ b.arrival_at_office

instance : DecidableRel tripLE := fun a b =>
  inferInstanceAs (Decidable (a.arrival_at_office ≤ b.arrival_at_office))

instance : IsTotal Trip tripLE :=
  ⟨fun a b => le_total a.arrival_at_office b.arrival_at_office⟩

instance : IsTrans Trip tripLE :=
  ⟨fun _ _ _ hab hbc => le_trans hab hbc⟩

/-- What one poll cycle reports: the error and `No trains` lines, the
`fetch_feed` invocations, the sorted-and-filtered `all_trips`, and
`best_option`. -/
structure CycleOutcome where
  messages : List String
  fetch_log : List String
  ranked : List Trip
  best_option : Option String
deriving DecidableEq, Repr

/-- One full poll cycle of `main` (minus sleeping and rendering): run the
route loop, then `all_trips.sort(key=lambda t: t.arrival_at_office)` (a
stable sort), filter by `config.get("max_arrival_minutes", 60)`, and take
`all_trips[0].route_name if all_trips else None` as the best option. -/
def runCycle (cfg : Config) (fetchFn : String → Except String FeedMessage)
    (now : ℚ) : CycleOutcome :=
  let s := cycleState cfg fetchFn now
  let sorted := s.all_trips.insertionSort tripLE
  let max_arrival_min := cfg.max_arrival_minutes.getD 60
  let ranked := sorted.filter fun t => t.total_min ≤ max_arrival_min
  { messages := s.messages
    fetch_log := s.fetch_log
    ranked := ranked
    best_option := ranked.head?.map fun t => t.route_name }

/-- The `f"{x:.0f}"` display formatting: round to the nearest integer,
ties to even (IEEE-754 round-half-even, as Python applies to the float). -/
def fmt0 (q : ℚ) : ℤ :=
  if q - ⌊q⌋ = 1 / 2 then (if 2 ∣ ⌊q⌋ then ⌊q⌋ else ⌊q⌋ + 1) else round q

/-- The relation every `Trip` built by `evalRoute` in the cycle at instant
`now` satisfies by construction: `total_min` is the full-precision
`(arrival_at_office - now) / 60`. -/
def tripConsistent (now : ℚ) (t : Trip) : Prop :=
  t.total_min = (t.arrival_at_office - now) / 60

/-- Proof-side invariant threaded through the route loop for a feed id
whose fetch succeeds: while it is absent from the cache it has never been
fetched, and in total it is fetched at most once. -/
def okInv (fid : String) (s : CycleState) : Prop :=
  (s.feed_cache.lookup fid = none → s.fetch_log.count fid = 0)
  ∧ s.fetch_log.count fid ≤ 1

/-! ### Concrete inputs used by witnesses and counterexamples

Walking times mirror the spec scenario: 1 minute (60 s) to the station and
2 minutes (120 s) to the office; neither configuration sets
`max_arrival_minutes`, so the code reads its default `60`. -/

def routeA : RouteConfig := ⟨"A", "F", "O", "D", 1, 2, none⟩

def routeB : RouteConfig := ⟨"B", "F", "OB", "DB", 1, 2, none⟩

def cfgA : Config := ⟨[routeA], 30, none⟩

def cfgAB : Config := ⟨[routeA, routeB], 30, none⟩

/-- One trip whose origin event carries only a departure instant (`1000`);
its arrival field therefore reads the protobuf default `0`. -/
def feedDepOnly : FeedMessage :=
  ⟨[⟨true, ⟨⟨"t1", "R"⟩, [⟨"O", 0, 1000⟩, ⟨"D", 1500, 0⟩]⟩⟩]⟩

/-- The same trip with the origin instant (`1000`) carried as an arrival. -/
def feedArr : FeedMessage :=
  ⟨[⟨true, ⟨⟨"t1", "R"⟩, [⟨"O", 1000, 0⟩, ⟨"D", 1500, 0⟩]⟩⟩]⟩

/-- A catchable trip arriving far in the future: its total time from
`now = 900` is `(99780 + 120 - 900) / 60 = 1650` minutes. -/
def feedFar : FeedMessage :=
  ⟨[⟨true, ⟨⟨"t2", "R"⟩, [⟨"O", 9900, 0⟩, ⟨"D", 99780, 0⟩]⟩⟩]⟩

def feedEmpty : FeedMessage := ⟨[]⟩

/-- One feed serving both configured routes with one trip each, both
arriving at `1500`, so both routes produce entries with identical total
time (12 minutes from `now = 900` after the 120 s office walk). -/
def feedTie : FeedMessage :=
  ⟨[⟨true, ⟨⟨"tA", "R"⟩, [⟨"O", 1000, 0⟩, ⟨"D", 1500, 0⟩]⟩⟩,
    ⟨true, ⟨⟨"tB", "R2"⟩, [⟨"OB", 1010, 0⟩, ⟨"DB", 1500, 0⟩]⟩⟩]⟩

/-- The entry route A contributes in the tie scenario
(`feedTie`, `now = 900`): boards at `1000`, arrives `1500 + 120 = 1620`. -/
def tripTieA : Trip := ⟨"A", 1620, 12, 2 / 3, [255, 255, 255]⟩

/-- The entry route B contributes in the tie scenario: boards at `1010`,
arrives `1500 + 120 = 1620` — the same total time as route A's entry. -/
def tripTieB : Trip := ⟨"B", 1620, 12, 5 / 6, [255, 255, 255]⟩

/-! ## Helper lemmas about the extractor -/

theorem extractOne_some_lt {os ds : String} {tu : TripUpdate} {t : ExtractedTrip}
    (h : extractOne os ds tu = some t) : t.origin_time < t.dest_time := by
  unfold extractOne at h
  split at h
  case h_1 o d heq =>
    split at h
    case isTrue hc =>
      cases h
      exact hc.2.2
    case isFalse hc => cases h
  case h_2 => cases h

theorem mem_find_trips {feed : FeedMessage} {os ds : String} {t : ExtractedTrip}
    (h : t ∈ find_trips_for_route feed os ds) :
    ∃ e ∈ feed.entity, e.has_trip_update ∧ extractOne os ds e.trip_update = some t := by
  unfold find_trips_for_route at h
  rcases List.mem_filterMap.mp h with ⟨e, he, hext⟩
  by_cases hb : e.has_trip_update
  · exact ⟨e, he, hb, by simpa [hb] using hext⟩
  · simp [hb] at hext

/-! ## Theorems for the claims about extraction and catchability -/

/-- C4: an `ExtractedTrip` is produced only when its recorded origin instant
is strictly less than its recorded destination instant; a record with both
stops present (both instants recorded) but origin not strictly below
destination yields no `ExtractedTrip`. -/
theorem C4_extracted_origin_lt_dest :
    (∀ (feed : FeedMessage) (os ds : String),
      ∀ t ∈ find_trips_for_route feed os ds, t.origin_time < t.dest_time)
    ∧ (∀ (os ds : String) (tu : TripUpdate) (o d : ℚ),
        tu.stop_time_update.foldl (scanStop os ds) (none, none) = (some o, some d) →
        ¬ o < d → extractOne os ds tu = none) := by
  constructor
  · intro feed os ds t ht
    rcases mem_find_trips ht with ⟨e, _, _, hext⟩
    exact extractOne_some_lt hext
  · intro os ds tu o d hscan hnlt
    unfold extractOne
    rw [hscan]
    simp [hnlt]

/-- C5: the catchability filter returns exactly the subsequence of trips
whose origin instant is at least the current instant plus the walking time
to the station; in particular equality is catchable. -/
theorem C5_catchable_filter_spec :
    ∀ (trips : List ExtractedTrip) (walk_to_station now : ℚ),
      (catchable_filter trips walk_to_station now).Sublist trips
      ∧ ∀ t, t ∈ catchable_filter trips walk_to_station now ↔
          t ∈ trips ∧ now + walk_to_station ≤ t.origin_time := by
  intro trips w now
  refine ⟨List.filter_sublist trips, fun t => ?_⟩
  simp [catchable_filter]

/-- C6: the catchability filter is monotonic in the current instant: raising
it can only shrink or preserve the catchable set. -/
theorem C6_catchable_monotone (trips : List ExtractedTrip)
    (walk_to_station now now' : ℚ) (h : now ≤ now') :
    catchable_filter trips walk_to_station now' ⊆
      catchable_filter trips walk_to_station now := by
  intro t ht
  unfold catchable_filter at ht ⊢
  rw [List.mem_filter] at ht ⊢
  refine ⟨ht.1, ?_⟩
  have h2 := of_decide_eq_true ht.2
  exact decide_eq_true (by linarith)

theorem C6_witness :
    catchable_filter [⟨"t1", "R", 1000, 1500⟩] 60 920 ⊆
      catchable_filter [⟨"t1", "R", 1000, 1500⟩] 60 900 :=
  C6_catchable_monotone [⟨"t1", "R", 1000, 1500⟩] 60 900 920 (by norm_num)

/-- C10: a trip-update record whose recorded origin or destination arrival
time is `0` (the unset/default protobuf value) produces no `ExtractedTrip`,
because the guard tests the recorded instants for truthiness. -/
theorem C10_zero_arrival_dropped (os ds : String) (tu : TripUpdate)
    (h : (tu.stop_time_update.foldl (scanStop os ds) (none, none)).1 = some 0
       ∨ (tu.stop_time_update.foldl (scanStop os ds) (none, none)).2 = some 0) :
    extractOne os ds tu = none := by
  unfold extractOne
  rcases hscan : tu.stop_time_update.foldl (scanStop os ds) (none, none) with ⟨o?, d?⟩
  rw [hscan] at h
  match o?, d? with
  | none, _ => rfl
  | some o, none => rfl
  | some o, some d =>
    simp only [Option.some.injEq] at h
    rcases h with h | h <;> simp [h]

theorem C10_witness :
    extractOne "O" "D" ⟨⟨"t1", "R"⟩, [⟨"O", 0, 1000⟩, ⟨"D", 1500, 0⟩]⟩ = none :=
  C10_zero_arrival_dropped "O" "D" ⟨⟨"t1", "R"⟩, [⟨"O", 0, 1000⟩, ⟨"D", 1500, 0⟩]⟩
    (Or.inl (by decide))

/-- C2: the extractor does not prefer the departure instant at the origin
stop nor fall back to the departure instant at the destination stop: it
reads `stop_time.arrival.time` at both stops.  An origin event carrying
only a departure instant (`departure = 1000`, arrival unset, so it reads
`0`) yields no trip at all, and when both instants are present at the
origin the arrival instant (`900`), not the departure instant (`1000`), is
recorded. -/
theorem C2_extractor_reads_arrival_only :
    find_trips_for_route
        ⟨[⟨true, ⟨⟨"t1", "R"⟩, [⟨"O", 0, 1000⟩, ⟨"D", 1500, 0⟩]⟩⟩]⟩ "O" "D" = []
    ∧ find_trips_for_route
        ⟨[⟨true, ⟨⟨"t1", "R"⟩, [⟨"O", 900, 1000⟩, ⟨"D", 1500, 1600⟩]⟩⟩]⟩ "O" "D"
      = [⟨"t1", "R", 900, 1500⟩] := by
  constructor <;> decide

/-! ## Helper lemmas about one poll cycle -/

theorem evalRoute_feed_cache (now : ℚ) (route : RouteConfig) (feed : FeedMessage)
    (s : CycleState) : (evalRoute now route feed s).feed_cache = s.feed_cache := by
  unfold evalRoute
  dsimp only
  split <;> rfl

theorem evalRoute_fetch_log (now : ℚ) (route : RouteConfig) (feed : FeedMessage)
    (s : CycleState) : (evalRoute now route feed s).fetch_log = s.fetch_log := by
  unfold evalRoute
  dsimp only
  split <;> rfl

theorem evalRoute_consistent (now : ℚ) (route : RouteConfig) (feed : FeedMessage)
    (s : CycleState) (hs : ∀ t ∈ s.all_trips, tripConsistent now t) :
    ∀ t ∈ (evalRoute now route feed s).all_trips, tripConsistent now t := by
  unfold evalRoute
  dsimp only
  split
  · exact hs
  · intro t ht
    rw [List.mem_append] at ht
    rcases ht with h | h
    · exact hs t h
    · rcases List.mem_map.mp h with ⟨u, _, rfl⟩
      rfl

theorem processRoute_consistent (f : String → Except String FeedMessage) (now : ℚ)
    (s : CycleState) (route : RouteConfig)
    (hs : ∀ t ∈ s.all_trips, tripConsistent now t) :
    ∀ t ∈ (processRoute f now s route).all_trips, tripConsistent now t := by
  unfold processRoute
  split
  · exact evalRoute_consistent _ _ _ _ hs
  · split
    · exact evalRoute_consistent _ _ _ _ hs
    · exact hs

theorem foldl_processRoute_consistent (f : String → Except String FeedMessage)
    (now : ℚ) : ∀ (routes : List RouteConfig) (s : CycleState),
    (∀ t ∈ s.all_trips, tripConsistent now t) →
    ∀ t ∈ (routes.foldl (processRoute f now) s).all_trips, tripConsistent now t := by
  intro routes
  induction routes with
  | nil => intro s hs; exact hs
  | cons r rs ih =>
      intro s hs
      exact ih _ (processRoute_consistent f now s r hs)

theorem cycleState_consistent (cfg : Config) (f : String → Except String FeedMessage)
    (now : ℚ) : ∀ t ∈ (cycleState cfg f now).all_trips, tripConsistent now t :=
  foldl_processRoute_consistent f now cfg.routes _ (by intro t ht; cases ht)

theorem mem_ranked (cfg : Config) (f : String → Except String FeedMessage)
    (now : ℚ) (t : Trip) :
    t ∈ (runCycle cfg f now).ranked ↔
      t ∈ (cycleState cfg f now).all_trips
      ∧ t.total_min ≤ cfg.max_arrival_minutes.getD 60 := by
  unfold runCycle
  dsimp only
  rw [List.mem_filter, List.mem_insertionSort]
  simp

theorem ranked_sorted_total (cfg : Config) (f : String → Except String FeedMessage)
    (now : ℚ) :
    (runCycle cfg f now).ranked.Pairwise fun a b => a.total_min ≤ b.total_min := by
  have hcons := cycleState_consistent cfg f now
  have hfil : ((runCycle cfg f now).ranked).Pairwise tripLE := by
    unfold runCycle
    dsimp only
    exact (List.sorted_insertionSort tripLE _).filter _
  refine hfil.imp_of_mem ?_
  intro a b ha hb hab
  have ha' := ((mem_ranked cfg f now a).mp ha).1
  have hb' := ((mem_ranked cfg f now b).mp hb).1
  have hca := hcons a ha'
  have hcb := hcons b hb'
  unfold tripConsistent at hca hcb
  unfold tripLE at hab
  rw [hca, hcb]
  have h60 : (0 : ℚ) ≤ 60 := by norm_num
  exact div_le_div_of_nonneg_right (by linarith) h60

/-- `runCycle` in terms of an already-computed route-loop state. -/
theorem runCycle_eq (cfg : Config) (f : String → Except String FeedMessage)
    (now : ℚ) (s : CycleState) (h : cycleState cfg f now = s) :
    runCycle cfg f now
      = { messages := s.messages, fetch_log := s.fetch_log,
          ranked := (s.all_trips.insertionSort tripLE).filter
            fun t => t.total_min ≤ cfg.max_arrival_minutes.getD 60,
          best_option := ((s.all_trips.insertionSort tripLE).filter
            fun t => t.total_min ≤ cfg.max_arrival_minutes.getD 60).head?.map
              fun t => t.route_name } := by
  unfold runCycle
  rw [h]

/-- Among the trips with one fixed sort key, `orderedInsert` is a no-op or
a prepend: the stable sort never reorders equal-key entries. -/
theorem filter_key_orderedInsert (k : ℚ) (a : Trip) (l : List Trip) :
    (l.orderedInsert tripLE a).filter (fun t => decide (t.arrival_at_office = k))
      = if a.arrival_at_office = k
        then a :: l.filter (fun t => decide (t.arrival_at_office = k))
        else l.filter (fun t => decide (t.arrival_at_office = k)) := by
  induction l with
  | nil =>
      by_cases hak : a.arrival_at_office = k <;>
        simp [List.orderedInsert, hak]
  | cons b l ih =>
      rw [List.orderedInsert]
      by_cases hab : tripLE a b
      · rw [if_pos hab]
        by_cases hak : a.arrival_at_office = k <;>
          simp [List.filter_cons, hak]
      · rw [if_neg hab]
        have hbk : b.arrival_at_office = k → a.arrival_at_office ≠ k := by
          intro hb ha
          exact hab (le_of_eq (ha.trans hb.symm))
        by_cases hb : b.arrival_at_office = k
        · rw [if_neg (hbk hb)]
          simp [List.filter_cons, hb, ih, hbk hb]
        · by_cases hak : a.arrival_at_office = k
          · rw [if_pos hak]
            simp [List.filter_cons, hb, ih, hak]
          · rw [if_neg hak]
            simp [List.filter_cons, hb, ih, hak]

/-- Stability of the sort, filter form: the subsequence of entries with one
fixed sort key is unchanged by sorting. -/
theorem filter_key_insertionSort (k : ℚ) (l : List Trip) :
    (l.insertionSort tripLE).filter (fun t => decide (t.arrival_at_office = k))
      = l.filter (fun t => decide (t.arrival_at_office = k)) := by
  induction l with
  | nil => rfl
  | cons a l ih =>
      rw [List.insertionSort, filter_key_orderedInsert]
      by_cases hak : a.arrival_at_office = k <;> simp [List.filter_cons, hak, ih]

/-! ## Helper lemmas about the feed cache and fetch dedup -/

theorem lookup_cons_key {k : String} {v : FeedMessage}
    {l : List (String × FeedMessage)} : ((k, v) :: l).lookup k = some v := by
  simp [List.lookup]

theorem lookup_cons_ne {k fid : String} {v : FeedMessage}
    {l : List (String × FeedMessage)} (h : fid ≠ k) :
    ((k, v) :: l).lookup fid = l.lookup fid := by
  have hb : (fid == k) = false := by simp [h]
  simp [List.lookup, hb]

theorem processRoute_okInv (f : String → Except String FeedMessage) (now : ℚ)
    (fid : String) (feed0 : FeedMessage) (hok : f fid = .ok feed0)
    (s : CycleState) (route : RouteConfig) (hs : okInv fid s) :
    okInv fid (processRoute f now s route) := by
  unfold processRoute
  split
  · exact ⟨by rw [evalRoute_feed_cache, evalRoute_fetch_log]; exact hs.1,
      by rw [evalRoute_fetch_log]; exact hs.2⟩
  next hl =>
    split
    · refine ⟨?_, ?_⟩
      · rw [evalRoute_feed_cache, evalRoute_fetch_log]
        dsimp only
        intro h
        by_cases he : fid = route.feed_id
        · subst he
          rw [lookup_cons_key] at h
          cases h
        · rw [lookup_cons_ne he] at h
          rw [List.count_append, hs.1 h]
          simp [List.count_cons, he]
      · rw [evalRoute_fetch_log]
        dsimp only
        rw [List.count_append]
        by_cases he : fid = route.feed_id
        · subst he
          rw [hs.1 hl]
          simp
        · have h1 : List.count fid [route.feed_id] = 0 := by
            simp [List.count_cons, he]
          rw [h1]
          simpa using hs.2
    next e hf =>
      have he : fid ≠ route.feed_id := by
        intro he
        rw [← he, hok] at hf
        cases hf
      refine ⟨?_, ?_⟩
      · dsimp only
        intro h
        rw [List.count_append, hs.1 h]
        simp [List.count_cons, he]
      · dsimp only
        rw [List.count_append]
        have h1 : List.count fid [route.feed_id] = 0 := by
          simp [List.count_cons, he]
        rw [h1]
        simpa using hs.2

theorem foldl_okInv (f : String → Except String FeedMessage) (now : ℚ)
    (fid : String) (feed0 : FeedMessage) (hok : f fid = .ok feed0) :
    ∀ (routes : List RouteConfig) (s : CycleState), okInv fid s →
      okInv fid (routes.foldl (processRoute f now) s) := by
  intro routes
  induction routes with
  | nil => intro s hs; exact hs
  | cons r rs ih =>
      intro s hs
      exact ih _ (processRoute_okInv f now fid feed0 hok s r hs)

theorem foldl_errCount (f : String → Except String FeedMessage) (now : ℚ)
    (fid e : String) (hbad : f fid = .error e) :
    ∀ (routes : List RouteConfig) (s : CycleState),
      s.feed_cache.lookup fid = none →
      (routes.foldl (processRoute f now) s).feed_cache.lookup fid = none
      ∧ (routes.foldl (processRoute f now) s).fetch_log.count fid
          = s.fetch_log.count fid
            + (routes.filter fun r => r.feed_id = fid).length := by
  intro routes
  induction routes with
  | nil => intro s h; exact ⟨h, by simp⟩
  | cons r rs ih =>
      intro s h
      have step : (processRoute f now s r).feed_cache.lookup fid = none
          ∧ (processRoute f now s r).fetch_log.count fid
              = s.fetch_log.count fid + (if r.feed_id = fid then 1 else 0) := by
        unfold processRoute
        split
        next feed hl =>
          have he : r.feed_id ≠ fid := by
            intro he
            rw [he, h] at hl
            cases hl
          refine ⟨by rw [evalRoute_feed_cache]; exact h, ?_⟩
          rw [evalRoute_fetch_log]
          simp [he]
        next hl =>
          split
          next feed hf =>
            have he : r.feed_id ≠ fid := by
              intro he
              rw [he, hbad] at hf
              cases hf
            refine ⟨?_, ?_⟩
            · rw [evalRoute_feed_cache]
              dsimp only
              rw [lookup_cons_ne (Ne.symm he)]
              exact h
            · rw [evalRoute_fetch_log]
              dsimp only
              rw [List.count_append]
              simp [List.count_cons, he]
          next e' hf =>
            refine ⟨h, ?_⟩
            dsimp only
            rw [List.count_append]
            by_cases he : r.feed_id = fid <;> simp [List.count_cons, he]
      have tail := ih (processRoute f now s r) step.1
      refine ⟨tail.1, ?_⟩
      show (rs.foldl (processRoute f now) (processRoute f now s r)).fetch_log.count fid = _
      rw [tail.2, step.2, List.filter_cons]
      by_cases he : r.feed_id = fid <;> (simp [he]; try omega)

theorem processRoute_error_skip (f : String → Except String FeedMessage)
    (now : ℚ) (s : CycleState) (route : RouteConfig) (e : String)
    (hl : s.feed_cache.lookup route.feed_id = none)
    (hf : f route.feed_id = .error e) :
    processRoute f now s route
      = { s with fetch_log := s.fetch_log ++ [route.feed_id],
                 messages := s.messages ++ [route.name ++ ": Error - " ++ e] } := by
  unfold processRoute
  rw [hl, hf]

/-! ## Claim theorems about one poll cycle -/

/-- C1 counterexample: a cycle in which route A's catchable-trip set is
empty produces a ranked output with no entry at all for the route — only a
console `No trains` line — rather than an unavailable sentinel entry. -/
theorem C1_cex_empty_route_omitted :
    runCycle cfgA (fun _ => .ok feedEmpty) 900
      = { messages := ["A: No trains"], fetch_log := ["F"],
          ranked := [], best_option := none } := by
  decide

/-- C1 (amended): a route with an empty catchable set is skipped
(`continue`): the cycle state's `all_trips` — hence the ranked output — is
unchanged, and the only effect is the printed `No trains` line. -/
theorem C1_empty_catchable_prints_no_trains (now : ℚ) (route : RouteConfig)
    (feed : FeedMessage) (s : CycleState)
    (h : catchable_filter
        (find_trips_for_route feed route.origin_stop route.dest_stop)
        (route.walk_to_station_min * 60) now = []) :
    evalRoute now route feed s
      = { s with messages := s.messages ++ [route.name ++ ": No trains"] } := by
  unfold evalRoute
  dsimp only
  rw [h]
  rfl

theorem C1_witness :
    evalRoute 900 routeA feedEmpty ⟨[], [], [], []⟩
      = { (⟨[], [], [], []⟩ : CycleState) with
          messages := ([] : List String) ++ [routeA.name ++ ": No trains"] } :=
  C1_empty_catchable_prints_no_trains 900 routeA feedEmpty ⟨[], [], [], []⟩ (by decide)

/-- C3 counterexample: `cfgA` configures no maximum-acceptable threshold,
yet the catchable far-future entry (total time 1650 min) is dropped from
the ranked output: the code filters against the default threshold of 60
even when none is configured. -/
theorem C3_cex_default_threshold_filters :
    cfgA.max_arrival_minutes = none
    ∧ (cycleState cfgA (fun _ => .ok feedFar) 900).all_trips
        = [{ route_name := "A", arrival_at_office := 99900, total_min := 1650,
             leave_in := 149, color := [255, 255, 255] }]
    ∧ runCycle cfgA (fun _ => .ok feedFar) 900
        = { messages := [], fetch_log := ["F"],
            ranked := [], best_option := none } := by
  have hf : find_trips_for_route feedFar "O" "D" = [⟨"t2", "R", 9900, 99780⟩] := by
    decide
  have e2 : cycleState cfgA (fun _ => .ok feedFar) 900
      = { feed_cache := [("F", feedFar)], fetch_log := ["F"], messages := [],
          all_trips := [⟨"A", 99900, 1650, 149, [255, 255, 255]⟩] } := by
    show evalRoute 900 routeA feedFar ⟨[("F", feedFar)], ["F"], [], []⟩ = _
    unfold evalRoute
    norm_num [hf, routeA, catchable_filter, List.filter_cons]
  refine ⟨rfl, e2 ▸ rfl, ?_⟩
  rw [runCycle_eq cfgA (fun _ => .ok feedFar) 900 _ e2]
  norm_num [List.insertionSort, List.orderedInsert, List.filter_cons, cfgA]

/-- C3 (amended): the ranked output is sorted ascending by total time and
contains exactly the produced entries whose total time is at most
`config.get("max_arrival_minutes", 60)` — the threshold filter always
applies, against the default 60 when none is configured; the best option is
the head of the ranked output (a minimum-total-time entry), and it is
`none` exactly when no entry survives. -/
theorem C3_ranked_sorted_filtered_best :
    ∀ (cfg : Config) (f : String → Except String FeedMessage) (now : ℚ),
      ((runCycle cfg f now).ranked.Pairwise fun a b => a.total_min ≤ b.total_min)
      ∧ (∀ t, t ∈ (runCycle cfg f now).ranked ↔
            t ∈ (cycleState cfg f now).all_trips
            ∧ t.total_min ≤ cfg.max_arrival_minutes.getD 60)
      ∧ (runCycle cfg f now).best_option
          = ((runCycle cfg f now).ranked.head?.map fun t => t.route_name)
      ∧ (∀ b ∈ (runCycle cfg f now).ranked.head?,
          ∀ t ∈ (runCycle cfg f now).ranked, b.total_min ≤ t.total_min)
      ∧ ((runCycle cfg f now).ranked = [] → (runCycle cfg f now).best_option = none) := by
  intro cfg f now
  refine ⟨ranked_sorted_total cfg f now, mem_ranked cfg f now, rfl, ?_, ?_⟩
  · intro b hb t ht
    have hp := ranked_sorted_total cfg f now
    cases hr : (runCycle cfg f now).ranked with
    | nil => rw [hr] at hb; cases hb
    | cons z rest =>
        rw [hr] at hb ht hp
        have hbz : b = z := by
          have := hb
          simp [Option.mem_def] at this
          exact this.symm
        subst hbz
        rcases List.mem_cons.mp ht with rfl | hmem
        · exact le_refl _
        · exact (List.pairwise_cons.mp hp).1 t hmem
  · intro h
    show ((runCycle cfg f now).ranked.head?.map fun t => t.route_name) = none
    rw [h]
    rfl

/-- C9 counterexample: in the spec's scenario the origin event carries its
instant as a departure (`1000`) with no arrival prediction; the extractor
reads only arrival times, so the trip is not extracted at all — the route
reports `No trains` instead of the claimed catchable result. -/
theorem C9_cex_scenario_not_catchable :
    runCycle cfgA (fun _ => .ok feedDepOnly) 900
      = { messages := ["A: No trains"], fetch_log := ["F"],
          ranked := [], best_option := none } := by
  decide

/-- C9 (amended): with the origin instant carried as an arrival time, the
scenario trip is catchable and yields internal full-precision values
`total_min = (1500 + 120 - 900) / 60 = 12` exactly (not 11.83) and
`leave_in = (1000 - 60 - 900) / 60 = 2/3`; the `:.0f` display rounds to
nearest (12 and 1), it does not truncate (11 and 0); ranking reads the
full-precision `arrival_at_office`/`total_min`, not the display values. -/
theorem C9_scenario_actual :
    runCycle cfgA (fun _ => .ok feedArr) 900
      = { messages := [], fetch_log := ["F"],
          ranked := [{ route_name := "A", arrival_at_office := 1620,
                       total_min := 12, leave_in := 2 / 3,
                       color := [255, 255, 255] }],
          best_option := some "A" }
    ∧ fmt0 12 = 12 ∧ fmt0 (2 / 3) = 1 := by
  have hf : find_trips_for_route feedArr "O" "D" = [⟨"t1", "R", 1000, 1500⟩] := by
    decide
  have e2 : cycleState cfgA (fun _ => .ok feedArr) 900
      = { feed_cache := [("F", feedArr)], fetch_log := ["F"], messages := [],
          all_trips := [⟨"A", 1620, 12, 2 / 3, [255, 255, 255]⟩] } := by
    show evalRoute 900 routeA feedArr ⟨[("F", feedArr)], ["F"], [], []⟩ = _
    unfold evalRoute
    norm_num [hf, routeA, catchable_filter, List.filter_cons]
  refine ⟨?_, ?_, ?_⟩
  · rw [runCycle_eq cfgA (fun _ => .ok feedArr) 900 _ e2]
    norm_num [List.insertionSort, List.orderedInsert, List.filter_cons, cfgA]
  · norm_num [fmt0]
  · norm_num [fmt0, round_eq]

/-- C7 counterexample: routes A and B share feed id `F`, whose fetch fails;
the cycle invokes `fetch_feed("F")` twice — a failed fetch is not cached,
so the feed id is not fetched "at most once per cycle" when fetching
fails. -/
theorem C7_cex_failed_fetch_refetched :
    (runCycle cfgAB (fun _ => .error "boom") 900).fetch_log = ["F", "F"] := by
  decide

/-- C7 (amended): a feed id whose fetch succeeds is fetched at most once
per cycle (the parsed feed is cached and reused); a feed id whose fetch
fails is never cached, so the fetch is re-attempted by every route sharing
that feed id within the same cycle — one invocation per sharing route;
each route whose fetch fails is skipped for the cycle, contributing only an
error line (the route itself is only retried by the next cycle). -/
theorem C7_fetch_cache_behavior :
    (∀ (cfg : Config) (f : String → Except String FeedMessage) (now : ℚ)
        (fid : String) (feed0 : FeedMessage), f fid = .ok feed0 →
        (runCycle cfg f now).fetch_log.count fid ≤ 1)
    ∧ (∀ (cfg : Config) (f : String → Except String FeedMessage) (now : ℚ)
        (fid e : String), f fid = .error e →
        (runCycle cfg f now).fetch_log.count fid
          = (cfg.routes.filter fun r => r.feed_id = fid).length)
    ∧ (∀ (f : String → Except String FeedMessage) (now : ℚ) (s : CycleState)
        (route : RouteConfig) (e : String),
        s.feed_cache.lookup route.feed_id = none →
        f route.feed_id = .error e →
        processRoute f now s route
          = { s with fetch_log := s.fetch_log ++ [route.feed_id],
                     messages := s.messages ++ [route.name ++ ": Error - " ++ e] }) := by
  refine ⟨?_, ?_, processRoute_error_skip⟩
  · intro cfg f now fid feed0 hok
    have h := foldl_okInv f now fid feed0 hok cfg.routes ⟨[], [], [], []⟩
      ⟨by intro h; simp, by simp⟩
    exact h.2
  · intro cfg f now fid e hbad
    have h := foldl_errCount f now fid e hbad cfg.routes ⟨[], [], [], []⟩ rfl
    simpa using h.2

/-- C8: when the entries sharing one total time are exactly `x` then `y` in
insertion (configured-route) order, both surviving the threshold, `x`
precedes `y` in the ranked output; and when that shared total time is
minimal among surviving entries, `x` — the earlier-configured route's
entry — wins the best-option selection: the sort is stable on insertion
order. -/
theorem C8_tie_break_stable (cfg : Config)
    (f : String → Except String FeedMessage) (now : ℚ) (x y : Trip)
    (htie : ((cycleState cfg f now).all_trips.filter
        fun t => decide (t.arrival_at_office = x.arrival_at_office)) = [x, y])
    (hx : x.total_min ≤ cfg.max_arrival_minutes.getD 60)
    (hy : y.total_min ≤ cfg.max_arrival_minutes.getD 60)
    (hmin : ∀ z ∈ (cycleState cfg f now).all_trips,
        z.total_min ≤ cfg.max_arrival_minutes.getD 60 →
        x.total_min ≤ z.total_min) :
    [x, y].Sublist (runCycle cfg f now).ranked
    ∧ (runCycle cfg f now).best_option = some x.route_name := by
  have hL : (runCycle cfg f now).ranked.filter
      (fun t => decide (t.arrival_at_office = x.arrival_at_office)) = [x, y] := by
    show ((((cycleState cfg f now).all_trips.insertionSort tripLE).filter
        fun t => decide (t.total_min ≤ cfg.max_arrival_minutes.getD 60)).filter
          fun t => decide (t.arrival_at_office = x.arrival_at_office)) = [x, y]
    rw [List.filter_filter, List.filter_congr (fun a _ => Bool.and_comm _ _),
      ← List.filter_filter, filter_key_insertionSort, htie]
    simp [hx, hy]
  have hsubL : ([x, y] : List Trip).Sublist (runCycle cfg f now).ranked := by
    rw [← hL]
    exact List.filter_sublist _
  refine ⟨hsubL, ?_⟩
  have hxr : x ∈ (runCycle cfg f now).ranked := hsubL.subset (by simp)
  cases hr : (runCycle cfg f now).ranked with
  | nil => rw [hr] at hxr; cases hxr
  | cons b rest =>
      have hbmem : b ∈ (runCycle cfg f now).ranked := by
        rw [hr]
        exact List.mem_cons_self b rest
      have hball := (mem_ranked cfg f now b).mp hbmem
      have hxall := (mem_ranked cfg f now x).mp hxr
      have h1 : x.total_min ≤ b.total_min := hmin b hball.1 hball.2
      have hp := ranked_sorted_total cfg f now
      rw [hr] at hp
      have h2 : b.total_min ≤ x.total_min := by
        rw [hr] at hxr
        rcases List.mem_cons.mp hxr with rfl | hxrest
        · exact le_refl _
        · exact (List.pairwise_cons.mp hp).1 x hxrest
      have htoteq : b.total_min = x.total_min := le_antisymm h2 h1
      have hcons := cycleState_consistent cfg f now
      have hcb := hcons b hball.1
      have hcx := hcons x hxall.1
      unfold tripConsistent at hcb hcx
      have harr : b.arrival_at_office = x.arrival_at_office := by
        have heq := htoteq
        rw [hcb, hcx] at heq
        have h60 : (60 : ℚ) ≠ 0 := by norm_num
        field_simp at heq
        linarith
      have hLb : (runCycle cfg f now).ranked.filter
          (fun t => decide (t.arrival_at_office = x.arrival_at_office))
            = b :: rest.filter
                (fun t => decide (t.arrival_at_office = x.arrival_at_office)) := by
        rw [hr, List.filter_cons]
        simp [harr]
      rw [hLb] at hL
      injection hL with hbx _
      show ((runCycle cfg f now).ranked.head?.map fun t => t.route_name)
        = some x.route_name
      rw [hr]
      simp [hbx]

/-- The route-loop state of the tie scenario: route A (configured first)
and route B share feed `F` and contribute one entry each, both with total
time 12 minutes. -/
theorem tie_all_trips :
    cycleState cfgAB (fun _ => .ok feedTie) 900
      = ⟨[("F", feedTie)], ["F"], [], [tripTieA, tripTieB]⟩ := by
  have hfA : find_trips_for_route feedTie "O" "D" = [⟨"tA", "R", 1000, 1500⟩] := by
    decide
  have hfB : find_trips_for_route feedTie "OB" "DB"
      = [⟨"tB", "R2", 1010, 1500⟩] := by
    decide
  have hs1 : processRoute (fun _ => .ok feedTie) 900 ⟨[], [], [], []⟩ routeA
      = ⟨[("F", feedTie)], ["F"], [], [tripTieA]⟩ := by
    show evalRoute 900 routeA feedTie ⟨[("F", feedTie)], ["F"], [], []⟩ = _
    unfold evalRoute
    norm_num [hfA, routeA, catchable_filter, List.filter_cons, tripTieA]
  have hs2 : processRoute (fun _ => .ok feedTie) 900
      (⟨[("F", feedTie)], ["F"], [], [tripTieA]⟩ : CycleState) routeB
      = ⟨[("F", feedTie)], ["F"], [], [tripTieA, tripTieB]⟩ := by
    show evalRoute 900 routeB feedTie ⟨[("F", feedTie)], ["F"], [], [tripTieA]⟩ = _
    unfold evalRoute
    norm_num [hfB, routeB, catchable_filter, List.filter_cons, tripTieA, tripTieB]
  show List.foldl (processRoute (fun _ => .ok feedTie) 900) ⟨[], [], [], []⟩
      [routeA, routeB] = _
  rw [List.foldl_cons, hs1, List.foldl_cons, hs2, List.foldl_nil]

theorem C8_witness :
    [tripTieA, tripTieB].Sublist (runCycle cfgAB (fun _ => .ok feedTie) 900).ranked
    ∧ (runCycle cfgAB (fun _ => .ok feedTie) 900).best_option
        = some tripTieA.route_name := by
  apply C8_tie_break_stable
  · rw [tie_all_trips]
    norm_num [tripTieA, tripTieB, List.filter_cons]
  · norm_num [tripTieA, cfgAB]
  · norm_num [tripTieB, cfgAB]
  · rw [tie_all_trips]
    intro z hz hle
    rcases List.mem_cons.mp hz with rfl | hz
    · exact le_refl _
    · rcases List.mem_cons.mp hz with rfl | hz
      · norm_num [tripTieA, tripTieB]
      · cases hz

end Mta

